import Mathlib

/-!
Shallow embedding of the core logic of the ImageCaptureUtil repository
(`app.py`, `data_collector.py`, `data_collector_laptop.py`).

Filesystem model: a folder is `Option (List String)` — `none` when the
directory does not exist, otherwise the list of entry basenames it holds
(`glob.glob` returns paths inside the folder; the code immediately takes
`os.path.basename`, so modelling entries as basenames is faithful).
-/

namespace ImageCaptureUtil

/-- Python `name.split('_')` on the character list of a string: splits at every
underscore, keeping empty components, and always returns at least one
component (Python: `"".split('_') == [""]`). -/
def splitOnUnderscore : List Char → List (List Char)
  | [] => [[]]
  | c :: cs =>
    let rest := splitOnUnderscore cs
    if c = '_' then [] :: rest
    else
      match rest with
      | [] => [[c]]
      | g :: gs => (c :: g) :: gs

/-- Python `name.split('_')[-1]`: the component after the last underscore
(the whole string when it has no underscore). -/
def lastComponent (s : List Char) : List Char :=
  (splitOnUnderscore s).getLastD []

/-- Decimal value of a list of digit characters, most significant first. -/
def digitsToNat (ds : List Char) : Nat :=
  ds.foldl (fun n c => 10 * n + (c.toNat - '0'.toNat)) 0

/-- Python `int(s)` restricted to ASCII: strips surrounding whitespace, allows
one optional sign, then requires a nonempty run of decimal digits; `none`
models the `ValueError` raised on anything else. (Unicode digits and digit
group underscores cannot occur here: the argument is an underscore-free
filename component, and non-ASCII digits are outside the model.) -/
def pyInt? (s : List Char) : Option Int :=
  let t := ((s.dropWhile Char.isWhitespace).reverse.dropWhile Char.isWhitespace).reverse
  let sgn : Int := if t.head? = some '-' then -1 else 1
  let mag : List Char :=
    if t.head? = some '-' ∨ t.head? = some '+' then t.tail else t
  if mag ≠ [] ∧ mag.all Char.isDigit then some (sgn * (digitsToNat mag : Int)) else none

/-- The glob pattern `f"{pfx}_*.jpg"` as a predicate on an entry basename:
the name decomposes as `pfx ++ "_" ++ rest` with `rest` ending in `".jpg"`
(`*` matches any character sequence, possibly empty). Faithful to
`glob.glob` provided `pfx` holds no glob metacharacter, see `globSafe`. -/
def globMatch (pfx name : List Char) : Bool :=
  (pfx ++ ['_']).isPrefixOf name &&
    ['.', 'j', 'p', 'g'].isSuffixOf (name.drop (pfx.length + 1))

/-- True when the class-name string contains none of the glob metacharacters
interpreted by Python's `glob` module, so that `glob.glob(f"{pfx}_*.jpg")`
matches exactly the entries described by `globMatch`. -/
def globSafe (pfx : String) : Bool :=
  pfx.data.all (fun c => c ≠ '*' && c ≠ '?' && c ≠ '[')

/-- `os.path.splitext(name)[0]` on a glob-matched entry: every matched name
ends in `".jpg"` and its last dot is exactly the one starting that suffix
(never inside the leading-dot run of the basename, because the name contains
an underscore before position `length - 4`), so `splitext` removes exactly
the final four characters. -/
def stemOf (name : List Char) : List Char :=
  name.take (name.length - 4)

/-- The parse performed by the loop body of `get_next_sequence_number`
(lines 62–67 of `app.py` and its twins): strip the extension, take the
component after the last underscore, convert with `int`; `none` models the
`ValueError` path that hits `continue`. -/
def parseSeq (name : String) : Option Int :=
  pyInt? (lastComponent (stemOf name.data))

/-- The entries of a folder that the glob pattern `f"{pfx}_*.jpg"` matches. -/
def matchedFiles (entries : List String) (pfx : String) : List String :=
  entries.filter (fun name => globMatch pfx.data name.data)

/-- The sequence values the scan loop successfully parses, in folder order. -/
def parsedSeqs (entries : List String) (pfx : String) : List Int :=
  (matchedFiles entries pfx).filterMap parseSeq

/-- `get_next_sequence_number(folder_path, prefix)` (identical in `app.py`
lines 54–72, `data_collector.py` lines 17–35 and `data_collector_laptop.py`
lines 17–35): `1` when the folder does not exist or nothing matches the
glob, otherwise one plus the running maximum (seeded with `0`) of the
successfully parsed trailing components of the matched names. -/
def get_next_sequence_number (folder : Option (List String)) (pfx : String) : Int :=
  match folder with
  | none => 1
  | some entries =>
    let files := matchedFiles entries pfx
    if files = [] then 1
    else
      let max_num := files.foldl
        (fun max_num f =>
          match parseSeq f with
          | some num => if num > max_num then num else max_num
          | none => max_num) 0
      max_num + 1

/-- The scan loop's conditional update is the binary maximum. -/
theorem scan_update_eq_max (a b : Int) : (if b > a then b else a) = max a b := by
  rw [max_def]; split_ifs <;> omega

/-- The scan loop over a file list computes a `foldl max` over the parses. -/
theorem scan_foldl_eq (l : List String) (a : Int) :
    l.foldl
      (fun max_num f =>
        match parseSeq f with
        | some num => if num > max_num then num else max_num
        | none => max_num) a
      = (l.filterMap parseSeq).foldl max a := by
  induction l generalizing a with
  | nil => rfl
  | cons x xs ih =>
    cases hx : parseSeq x with
    | none => simp only [List.foldl_cons, List.filterMap_cons, hx, ih]
    | some num =>
      simp only [List.foldl_cons, List.filterMap_cons, hx]
      rw [scan_update_eq_max]
      exact ih (max a num)

/-- Closed form of the Sequence Resolver on an existing folder: one plus the
maximum (seeded with `0`) of all parsed sequence values. -/
theorem get_some_eq (entries : List String) (pfx : String) :
    get_next_sequence_number (some entries) pfx
      = (parsedSeqs entries pfx).foldl max 0 + 1 := by
  show (if matchedFiles entries pfx = [] then 1
        else (matchedFiles entries pfx).foldl
          (fun max_num f =>
            match parseSeq f with
            | some num => if num > max_num then num else max_num
            | none => max_num) 0 + 1)
      = (parsedSeqs entries pfx).foldl max 0 + 1
  by_cases h : matchedFiles entries pfx = []
  · simp [h, parsedSeqs]
  · rw [if_neg h, scan_foldl_eq, parsedSeqs]

/-- The seed of a `foldl max` bounds the result from below. -/
theorem init_le_foldl_max (l : List Int) (a : Int) : a ≤ l.foldl max a := by
  induction l generalizing a with
  | nil => exact le_refl a
  | cons b bs ih => exact le_trans (le_max_left a b) (ih (max a b))

/-- Every member of the list bounds a `foldl max` from below. -/
theorem mem_le_foldl_max (l : List Int) : ∀ (a x : Int), x ∈ l → x ≤ l.foldl max a := by
  induction l with
  | nil => intro a x hx; cases hx
  | cons b bs ih =>
    intro a x hx
    simp only [List.foldl_cons]
    rcases List.mem_cons.mp hx with rfl | hmem
    · exact le_trans (le_max_right a x) (init_le_foldl_max bs (max a x))
    · exact ih (max a b) x hmem

/-- A common upper bound of the seed and all members bounds `foldl max`. -/
theorem foldl_max_le (l : List Int) : ∀ (a m : Int), a ≤ m →
    (∀ n ∈ l, n ≤ m) → l.foldl max a ≤ m := by
  induction l with
  | nil => intro a m ha _; exact ha
  | cons b bs ih =>
    intro a m ha h
    simp only [List.foldl_cons]
    exact ih (max a b) m (max_le ha (h b (List.mem_cons_self b bs)))
      (fun n hn => h n (List.mem_cons_of_mem b hn))

/-- C1: for every folder and prefix, `get_next_sequence_number` returns 1 when
the folder does not exist, returns 1 when the folder exists but no entry
matches the glob pattern, and otherwise returns 1 plus the maximum sequence
value parsed from the matching files; in particular the folder holding
`object_01_0001.jpg … object_01_0007.jpg` with `0004` deleted yields 8. -/
theorem C1_next_sequence_resolver :
    (∀ pfx : String, get_next_sequence_number none pfx = 1) ∧
    (∀ (pfx : String) (entries : List String), globSafe pfx = true →
        matchedFiles entries pfx = [] →
        get_next_sequence_number (some entries) pfx = 1) ∧
    (∀ (pfx : String) (entries : List String) (m : Int), globSafe pfx = true →
        m ∈ parsedSeqs entries pfx → (∀ n ∈ parsedSeqs entries pfx, n ≤ m) →
        0 ≤ m →
        get_next_sequence_number (some entries) pfx = 1 + m) ∧
    get_next_sequence_number
      (some ["object_01_0001.jpg", "object_01_0002.jpg", "object_01_0003.jpg",
             "object_01_0005.jpg", "object_01_0006.jpg", "object_01_0007.jpg"])
      "object_01" = 8 := by
  refine ⟨fun pfx => rfl, ?_, ?_, by decide⟩
  · intro pfx entries _ h
    show (if matchedFiles entries pfx = [] then 1 else _) = 1
    rw [if_pos h]
  · intro pfx entries m _ hm hub h0
    rw [get_some_eq]
    have h1 : (parsedSeqs entries pfx).foldl max 0 ≤ m :=
      foldl_max_le _ 0 m h0 hub
    have h2 : m ≤ (parsedSeqs entries pfx).foldl max 0 :=
      mem_le_foldl_max _ 0 m hm
    omega

/-- Witness for C1 at a concrete folder: one file with sequence value 5
yields next sequence 6. -/
theorem C1_next_sequence_resolver_witness :
    get_next_sequence_number (some ["p_0005.jpg"]) "p" = 1 + 5 :=
  C1_next_sequence_resolver.2.2.1 "p" ["p_0005.jpg"] 5 (by decide) (by decide)
    (by decide) (by decide)

/-- Modelled from the spec's words (for comparison with the code's behaviour,
not from the source): an entry "matching the literal pattern
`<prefix>_<digits>.jpg` with an exact prefix match", i.e. the name decomposes
as the prefix, one underscore, a nonempty run of decimal digits, and the
extension. -/
def specLiteralPattern (pfx name : String) : Bool :=
  let p := pfx.data ++ ['_']
  let rest := name.data.drop p.length
  p.isPrefixOf name.data && ['.', 'j', 'p', 'g'].isSuffixOf rest &&
    (let mid := rest.take (rest.length - 4)
     !mid.isEmpty && mid.all Char.isDigit)

/-- The parsed-contribution list in guarded-`filterMap` form. -/
theorem parsedSeqs_eq_filterMap (entries : List String) (pfx : String) :
    parsedSeqs entries pfx
      = entries.filterMap
          (fun e => if globMatch pfx.data e.data then parseSeq e else none) := by
  unfold parsedSeqs matchedFiles
  induction entries with
  | nil => rfl
  | cons e es ih =>
    by_cases hm : globMatch pfx.data e.data <;>
      simp [List.filter_cons, List.filterMap_cons, hm, ih]

/-- An entry the glob skips, or whose trailing component fails to parse,
leaves the resolver's contribution list unchanged. -/
theorem parsedSeqs_cons_skip (pfx : String) (entries : List String) (e : String)
    (h : globMatch pfx.data e.data = false ∨ parseSeq e = none) :
    parsedSeqs (e :: entries) pfx = parsedSeqs entries pfx := by
  rw [parsedSeqs_eq_filterMap, parsedSeqs_eq_filterMap, List.filterMap_cons]
  rcases h with h | h
  · rw [if_neg (by simp [h])]
  · by_cases hm : globMatch pfx.data e.data
    · rw [if_pos hm, h]
    · rw [if_neg hm]

/-- Only the glob-matched, successfully parsed entries contribute. -/
theorem parsedSeqs_filter_contrib (pfx : String) (entries : List String) :
    parsedSeqs
        (entries.filter
          (fun e => globMatch pfx.data e.data && (parseSeq e).isSome)) pfx
      = parsedSeqs entries pfx := by
  rw [parsedSeqs_eq_filterMap, parsedSeqs_eq_filterMap]
  induction entries with
  | nil => rfl
  | cons e es ih =>
    by_cases hm : globMatch pfx.data e.data
    · cases hp : parseSeq e with
      | none => simp [List.filter_cons, List.filterMap_cons, hm, hp, ih]
      | some n => simp [List.filter_cons, List.filterMap_cons, hm, hp, ih]
    · simp [List.filter_cons, List.filterMap_cons, hm, ih]

/-- C2 counterexample: the entry `object_01_0005.jpg` does not match the
literal pattern `<prefix>_<digits>.jpg` for the prefix `object` (its digits
component would be `01_0005`), yet the code counts it — the folder holding
only this entry yields next sequence 6, not 1 — so it is false that only
literal-pattern entries contribute to the result. -/
theorem C2_counterexample :
    specLiteralPattern "object" "object_01_0005.jpg" = false ∧
    get_next_sequence_number (some ["object_01_0005.jpg"]) "object" = 6 ∧
    ¬ (∀ (pfx : String) (entries : List String) (e : String), e ∈ entries →
        specLiteralPattern pfx e = false →
        get_next_sequence_number (some (entries.filter (fun x => x ≠ e))) pfx
          = get_next_sequence_number (some entries) pfx) := by
  refine ⟨by decide, by decide, fun h => ?_⟩
  exact absurd
    (h "object" ["object_01_0005.jpg"] "object_01_0005.jpg" (by decide) (by decide))
    (by decide)

/-- C2 amended: the resolver considers exactly the entries the glob
`<prefix>_*.jpg` matches whose stem component after the last underscore
parses as a Python integer; an entry failing either condition (such as
`<prefix>_abc.jpg`, or `other_0005.jpg` under the prefix `object_01`) is
silently skipped without error and removing all such entries leaves the
result unchanged — but an entry such as `object_01_0005.jpg` under the
prefix `object` does contribute, through its trailing component `0005`. -/
theorem C2_amended_considered_entries :
    (∀ (pfx : String) (entries : List String) (e : String), globSafe pfx = true →
        globMatch pfx.data e.data = false ∨ parseSeq e = none →
        get_next_sequence_number (some (e :: entries)) pfx
          = get_next_sequence_number (some entries) pfx) ∧
    (∀ (pfx : String) (entries : List String), globSafe pfx = true →
        get_next_sequence_number
            (some (entries.filter
              (fun e => globMatch pfx.data e.data && (parseSeq e).isSome))) pfx
          = get_next_sequence_number (some entries) pfx) ∧
    get_next_sequence_number
      (some ["object_01_abc.jpg", "other_0005.jpg", "object_01_0003.jpg"])
      "object_01" = 4 ∧
    get_next_sequence_number (some ["object_01_0005.jpg"]) "object" = 6 := by
  refine ⟨?_, ?_, by decide, by decide⟩
  · intro pfx entries e _ h
    rw [get_some_eq, get_some_eq, parsedSeqs_cons_skip pfx entries e h]
  · intro pfx entries _
    rw [get_some_eq, get_some_eq, parsedSeqs_filter_contrib]

/-- Witness for C2's amended claim at a concrete folder: an entry with a
non-numeric trailing component does not change the next sequence number. -/
theorem C2_amended_considered_entries_witness :
    get_next_sequence_number (some ["p_abc.jpg", "p_0002.jpg"]) "p"
      = get_next_sequence_number (some ["p_0002.jpg"]) "p" :=
  C2_amended_considered_entries.1 "p" ["p_0002.jpg"] "p_abc.jpg" (by decide)
    (Or.inr (by decide))

/-- The unscaled-clamp crop rectangle (`app.py` lines 172–176 and
`data_collector.py` lines 145–151): near edges clamped below `w-1`/`h-1`,
far edges clamped to `w`/`h`. -/
def cropRect (w h off_x off_y crop_w crop_h : Int) : Int × Int × Int × Int :=
  let x1 := min off_x (w - 1)
  let y1 := min off_y (h - 1)
  let x2 := min (off_x + crop_w) w
  let y2 := min (off_y + crop_h) h
  (x1, y1, x2, y2)

/-- Number of indices selected by the Python slice `a[lo:hi]` on an axis of
length `n` (numpy basic slicing with step 1): a negative bound counts from
the end of the axis, then both bounds are clamped into `[0, n]`. -/
def sliceLen (n lo hi : Int) : Int :=
  let lo' := if lo < 0 then max 0 (n + lo) else min lo n
  let hi' := if hi < 0 then max 0 (n + hi) else min hi n
  max 0 (hi' - lo')

/-- C3 counterexample: the claimed worked example is arithmetically wrong —
on a 640x480 frame the request (170, 90, 300, 300) yields
`y2 = min (90 + 300) 480 = 390`, not the claimed 380. -/
theorem C3_counterexample :
    cropRect 640 480 170 90 300 300 ≠ (170, 90, 470, 380) ∧
    cropRect 640 480 170 90 300 300 = (170, 90, 470, 390) :=
  ⟨by decide, by decide⟩

/-- C3 amended: in unscaled-clamp mode the computed rectangle is exactly
`(min off_x (w-1), min off_y (h-1), min (off_x+crop_w) w, min (off_y+crop_h) h)`,
and the 640x480 frame with request (170, 90, 300, 300) yields
(170, 90, 470, 390). -/
theorem C3_unscaled_clamp_rectangle :
    (∀ w h off_x off_y crop_w crop_h : Int,
        cropRect w h off_x off_y crop_w crop_h
          = (min off_x (w - 1), min off_y (h - 1),
             min (off_x + crop_w) w, min (off_y + crop_h) h)) ∧
    cropRect 640 480 170 90 300 300 = (170, 90, 470, 390) :=
  ⟨fun _ _ _ _ _ _ => rfl, by decide⟩

/-- C9 counterexample: with a negative X offset the clamped bounds still
satisfy `x1 < x2`, but the numpy slice is empty — for frame width 200,
request `(off_x, off_y, crop_w, crop_h) = (-1000, 0, 1, 1)` gives
`x1 = -1000 < x2 = -999` while the slice `[-1000:-999]` on an axis of
length 200 selects 0 indices, so the claim's "the downstream array slice is
never degenerate" fails as stated. -/
theorem C9_counterexample_negative_offset :
    cropRect 200 150 (-1000) 0 1 1 = (-1000, 0, -999, 1) ∧
    sliceLen 200 (-1000) (-999) = 0 ∧
    ¬ (∀ w h off_x off_y crop_w crop_h x1 y1 x2 y2 : Int,
        1 ≤ w → 1 ≤ h → 1 ≤ crop_w → 1 ≤ crop_h →
        cropRect w h off_x off_y crop_w crop_h = (x1, y1, x2, y2) →
        0 < sliceLen w x1 x2 ∧ 0 < sliceLen h y1 y2) := by
  refine ⟨by decide, by decide, fun hclaim => ?_⟩
  exact absurd
    (hclaim 200 150 (-1000) 0 1 1 (-1000) 0 (-999) 1 (by decide) (by decide)
      (by decide) (by decide) (by decide)).1
    (by decide)

/-- C9 amended: for every frame with `w, h ≥ 1` and request with
`crop_w, crop_h ≥ 1`, the clamped rectangle satisfies `x1 < w`, `y1 < h`,
`x1 < x2` and `y1 < y2`; when additionally the offsets are nonnegative (as
every on-screen request is), the numpy slices `[y1:y2]` and `[x1:x2]` select
at least one index each, so the saved ROI is non-degenerate; in particular
`off_x = 500` on `w = 200` gives `x1 = 199`, `x2 = 200`, a valid 1-pixel
slice. -/
theorem C9_amended_unscaled_safety :
    (∀ w h off_x off_y crop_w crop_h x1 y1 x2 y2 : Int,
        1 ≤ w → 1 ≤ h → 1 ≤ crop_w → 1 ≤ crop_h →
        cropRect w h off_x off_y crop_w crop_h = (x1, y1, x2, y2) →
        (x1 < w ∧ y1 < h ∧ x1 < x2 ∧ y1 < y2) ∧
        (0 ≤ off_x → 0 ≤ off_y →
          0 < sliceLen w x1 x2 ∧ 0 < sliceLen h y1 y2)) ∧
    cropRect 200 150 500 90 300 300 = (199, 90, 200, 150) ∧
    sliceLen 200 199 200 = 1 := by
  refine ⟨?_, by decide, by decide⟩
  intro w h ox oy cw ch x1 y1 x2 y2 hw hh hcw hch heq
  simp only [cropRect, Prod.mk.injEq] at heq
  obtain ⟨hx1, hy1, hx2, hy2⟩ := heq
  subst hx1; subst hy1; subst hx2; subst hy2
  refine ⟨by omega, fun hx hy => ?_⟩
  simp only [sliceLen]
  constructor <;> (split_ifs <;> omega)

/-- Witness for C9's amended claim at the claim's own example: `off_x = 500`
on a 200x150 frame still yields one-pixel-wide valid slices. -/
theorem C9_amended_unscaled_safety_witness :
    0 < sliceLen 200 199 200 ∧ 0 < sliceLen 150 90 150 :=
  (C9_amended_unscaled_safety.1 200 150 500 90 300 300 199 90 200 150
      (by decide) (by decide) (by decide) (by decide) (by decide)).2
    (by decide) (by decide)

/-- Python `int()` applied to a nonintegral ratio: truncation toward zero.
`q.num.tdiv q.den` is exactly that truncation since `Rat` is kept normalised
with a positive denominator. (The source computes `scale` with binary
floating point; this embedding models that arithmetic as exact rational
arithmetic.) -/
def pyint (q : ℚ) : Int :=
  q.num.tdiv (q.den : Int)

/-- The four values `safe_x, safe_y, safe_w, safe_h` computed by
`data_collector_laptop.py` lines 148–160. -/
structure ScaledCrop where
  safe_x : Int
  safe_y : Int
  safe_w : Int
  safe_h : Int
deriving DecidableEq

/-- The scaled-clamp-min1 crop of `data_collector_laptop.py` lines 148–160:
scale the requested rectangle by `img/cam` per axis, truncate with `int`,
clamp the origin into the image, clamp the size to what remains and floor it
at 1. -/
def scaledCrop (cam_w cam_h img_w img_h offset_x offset_y crop_width crop_height : Int) :
    ScaledCrop :=
  let scale_x : ℚ := (img_w : ℚ) / (cam_w : ℚ)
  let scale_y : ℚ := (img_h : ℚ) / (cam_h : ℚ)
  let real_x := pyint ((offset_x : ℚ) * scale_x)
  let real_y := pyint ((offset_y : ℚ) * scale_y)
  let real_w := pyint ((crop_width : ℚ) * scale_x)
  let real_h := pyint ((crop_height : ℚ) * scale_y)
  let safe_x := max 0 (min real_x (img_w - 1))
  let safe_y := max 0 (min real_y (img_h - 1))
  let safe_w := max 1 (min real_w (img_w - safe_x))
  let safe_h := max 1 (min real_h (img_h - safe_y))
  ⟨safe_x, safe_y, safe_w, safe_h⟩

/-- The PIL crop box `(left, upper, right, lower)` the code passes to
`img.crop` (`data_collector_laptop.py` line 162). -/
def cropBox (s : ScaledCrop) : Int × Int × Int × Int :=
  (s.safe_x, s.safe_y, s.safe_x + s.safe_w, s.safe_y + s.safe_h)

/-- C4: in scaled-clamp-min1 mode the four rectangle values are the requested
ones multiplied by `img_w / cam_w` resp. `img_h / cam_h` (then truncated),
the origin is clamped into the image, the size is clamped to the remaining
extent and floored at 1, so the crop box lies inside the image and is at
least 1x1; calibration 640x480 with actual image 1280x960 and request
(170, 90, 300, 300) yields the crop box (340, 180, 940, 780). -/
theorem C4_scaled_clamp_min1 :
    (∀ cam_w cam_h img_w img_h offset_x offset_y crop_width crop_height : Int,
      ∀ s : ScaledCrop,
        0 < cam_w → 0 < cam_h → 1 ≤ img_w → 1 ≤ img_h →
        s = scaledCrop cam_w cam_h img_w img_h offset_x offset_y crop_width crop_height →
        (s.safe_x = max 0 (min (pyint ((offset_x : ℚ) * ((img_w : ℚ) / (cam_w : ℚ))))
              (img_w - 1)) ∧
         s.safe_y = max 0 (min (pyint ((offset_y : ℚ) * ((img_h : ℚ) / (cam_h : ℚ))))
              (img_h - 1)) ∧
         s.safe_w = max 1 (min (pyint ((crop_width : ℚ) * ((img_w : ℚ) / (cam_w : ℚ))))
              (img_w - s.safe_x)) ∧
         s.safe_h = max 1 (min (pyint ((crop_height : ℚ) * ((img_h : ℚ) / (cam_h : ℚ))))
              (img_h - s.safe_y))) ∧
        (0 ≤ s.safe_x ∧ s.safe_x + s.safe_w ≤ img_w ∧ 1 ≤ s.safe_w ∧
         0 ≤ s.safe_y ∧ s.safe_y + s.safe_h ≤ img_h ∧ 1 ≤ s.safe_h)) ∧
    cropBox (scaledCrop 640 480 1280 960 170 90 300 300) = (340, 180, 940, 780) := by
  constructor
  · intro cam_w cam_h img_w img_h offset_x offset_y crop_width crop_height s
      hcw hch hw hh hs
    subst hs
    refine ⟨⟨rfl, rfl, rfl, rfl⟩, ?_⟩
    simp only [scaledCrop]
    generalize pyint ((offset_x : ℚ) * ((img_w : ℚ) / (cam_w : ℚ))) = rx
    generalize pyint ((offset_y : ℚ) * ((img_h : ℚ) / (cam_h : ℚ))) = ry
    generalize pyint ((crop_width : ℚ) * ((img_w : ℚ) / (cam_w : ℚ))) = rw
    generalize pyint ((crop_height : ℚ) * ((img_h : ℚ) / (cam_h : ℚ))) = rh
    omega
  · have hx : pyint (((170 : Int) : ℚ) * (((1280 : Int) : ℚ) / ((640 : Int) : ℚ))) = 340 := by
      norm_num [pyint]
    have hy : pyint (((90 : Int) : ℚ) * (((960 : Int) : ℚ) / ((480 : Int) : ℚ))) = 180 := by
      norm_num [pyint]
    have hwq : pyint (((300 : Int) : ℚ) * (((1280 : Int) : ℚ) / ((640 : Int) : ℚ))) = 600 := by
      norm_num [pyint]
    have hhq : pyint (((300 : Int) : ℚ) * (((960 : Int) : ℚ) / ((480 : Int) : ℚ))) = 600 := by
      norm_num [pyint]
    simp only [scaledCrop, cropBox, hx, hy, hwq, hhq]
    decide

/-- Witness for C4 at the claim's own example: the scaled crop of the
1280x960 image stays inside it and is at least 1x1. -/
theorem C4_scaled_clamp_min1_witness :
    0 ≤ (scaledCrop 640 480 1280 960 170 90 300 300).safe_x ∧
    (scaledCrop 640 480 1280 960 170 90 300 300).safe_x +
        (scaledCrop 640 480 1280 960 170 90 300 300).safe_w ≤ 1280 ∧
    1 ≤ (scaledCrop 640 480 1280 960 170 90 300 300).safe_w ∧
    0 ≤ (scaledCrop 640 480 1280 960 170 90 300 300).safe_y ∧
    (scaledCrop 640 480 1280 960 170 90 300 300).safe_y +
        (scaledCrop 640 480 1280 960 170 90 300 300).safe_h ≤ 960 ∧
    1 ≤ (scaledCrop 640 480 1280 960 170 90 300 300).safe_h :=
  (C4_scaled_clamp_min1.1 640 480 1280 960 170 90 300 300
      (scaledCrop 640 480 1280 960 170 90 300 300)
      (by decide) (by decide) (by decide) (by decide) rfl).2

/-- Decimal digit characters of `n`, most significant first, with explicit
fuel so the definition is structural (the fuel `n + 1` always suffices). -/
def natToDigitsAux : Nat → Nat → List Char
  | 0, _ => []
  | fuel + 1, n =>
    if n < 10 then [Nat.digitChar n]
    else natToDigitsAux fuel (n / 10) ++ [Nat.digitChar (n % 10)]

/-- Decimal rendering of a natural number, as character list. -/
def natToDigits (n : Nat) : List Char :=
  natToDigitsAux (n + 1) n

/-- Left-pad a digit string with zeros up to the given width. -/
def padZeros (width : Nat) (ds : List Char) : List Char :=
  List.replicate (width - ds.length) '0' ++ ds

/-- The Python format `f"{n:04d}"`: decimal rendering zero-padded to (total)
width 4, the sign counting toward the width when `n` is negative. -/
def pad4 (n : Int) : String :=
  if n < 0 then ⟨'-' :: padZeros 3 (natToDigits (-n).toNat)⟩
  else ⟨padZeros 4 (natToDigits n.toNat)⟩

/-- What one call of the Capture Writer produces: the returned filename, the
sequence number it embeds, the JPEG quality passed to the encoder, and the
folder contents after the write. -/
structure SaveOutcome where
  filename : String
  seq : Int
  quality : Nat
  contents : List String
deriving DecidableEq

/-- `save_frame_to_disk(frame_bgr, folder, prefix)` (`app.py` lines 74–81;
`save_frame` of `data_collector.py` lines 37–48 and `save_image` of
`data_collector_laptop.py` lines 37–44 are the same writer): create the
folder when missing (`os.makedirs(..., exist_ok=True)` — modelled by
starting from the empty entry list), ask the Sequence Resolver for the next
number, format the 4-padded filename and write the JPEG at quality 95
(`cv2.imwrite` would overwrite an existing entry of the same name, hence the
membership test; the proofs show the test is never positive). -/
def save_frame_to_disk (folder : Option (List String)) (pfx : String) : SaveOutcome :=
  let entries := folder.getD []
  let seq_num := get_next_sequence_number folder pfx
  let filename := pfx ++ "_" ++ pad4 seq_num ++ ".jpg"
  { filename := filename
    seq := seq_num
    quality := 95
    contents := if filename ∈ entries then entries else entries ++ [filename] }

/-- The Sequence Resolver never returns less than 1. -/
theorem one_le_get (folder : Option (List String)) (pfx : String) :
    1 ≤ get_next_sequence_number folder pfx := by
  cases folder with
  | none => exact le_refl 1
  | some entries =>
    rw [get_some_eq]
    have h := init_le_foldl_max (parsedSeqs entries pfx) 0
    omega

/-- A decimal digit character is a digit. -/
theorem digitChar_isDigit (d : Nat) (h : d < 10) :
    (Nat.digitChar d).isDigit = true := by
  interval_cases d <;> decide

/-- A decimal digit character is not an underscore. -/
theorem digitChar_ne_underscore (d : Nat) (h : d < 10) :
    Nat.digitChar d ≠ '_' := by
  interval_cases d <;> decide

/-- Numeric value of a decimal digit character. -/
theorem digitChar_val (d : Nat) (h : d < 10) :
    (Nat.digitChar d).toNat - '0'.toNat = d := by
  interval_cases d <;> decide

/-- Appending one character to a digit string multiplies its value by ten and
adds the character's value. -/
theorem digitsToNat_append_singleton (ds : List Char) (c : Char) :
    digitsToNat (ds ++ [c]) = 10 * digitsToNat ds + (c.toNat - '0'.toNat) := by
  unfold digitsToNat
  rw [List.foldl_append]
  rfl

/-- With enough fuel the decimal rendering is nonempty, consists of digits,
holds no underscore, and evaluates back to the rendered number. -/
theorem natToDigitsAux_spec (fuel : Nat) : ∀ n : Nat, n < fuel →
    natToDigitsAux fuel n ≠ [] ∧
    (natToDigitsAux fuel n).all Char.isDigit = true ∧
    '_' ∉ natToDigitsAux fuel n ∧
    digitsToNat (natToDigitsAux fuel n) = n := by
  induction fuel with
  | zero => intro n hn; omega
  | succ fuel ih =>
    intro n hn
    by_cases h10 : n < 10
    · simp only [natToDigitsAux, if_pos h10]
      refine ⟨by simp, ?_, ?_, ?_⟩
      · simp [digitChar_isDigit n h10]
      · simp only [List.mem_singleton]
        exact fun hmem => digitChar_ne_underscore n h10 hmem.symm
      · show digitsToNat ([] ++ [Nat.digitChar n]) = n
        rw [digitsToNat_append_singleton, digitChar_val n h10]
        simp [digitsToNat]
    · have hfuel : n / 10 < fuel := by omega
      obtain ⟨h1, h2, h3, h4⟩ := ih (n / 10) hfuel
      simp only [natToDigitsAux, if_neg h10]
      refine ⟨by simp, ?_, ?_, ?_⟩
      · simp only [List.all_append, h2, Bool.true_and, List.all_cons, List.all_nil,
          Bool.and_true]
        exact digitChar_isDigit (n % 10) (by omega)
      · simp only [List.mem_append, List.mem_singleton]
        rintro (hmem | hmem)
        · exact h3 hmem
        · exact digitChar_ne_underscore (n % 10) (by omega) hmem.symm
      · rw [digitsToNat_append_singleton, h4, digitChar_val (n % 10) (by omega)]
        omega

/-- The decimal rendering round-trips through `digitsToNat` and is a
nonempty underscore-free digit string. -/
theorem natToDigits_spec (n : Nat) :
    natToDigits n ≠ [] ∧ (natToDigits n).all Char.isDigit = true ∧
    '_' ∉ natToDigits n ∧ digitsToNat (natToDigits n) = n :=
  natToDigitsAux_spec (n + 1) n (by omega)

/-- Leading zeros do not change the decimal value. -/
theorem digitsToNat_replicate_zero (k : Nat) (ds : List Char) :
    digitsToNat (List.replicate k '0' ++ ds) = digitsToNat ds := by
  induction k with
  | zero => rfl
  | succ k ih =>
    show digitsToNat ('0' :: (List.replicate k '0' ++ ds)) = digitsToNat ds
    unfold digitsToNat at ih ⊢
    simpa using ih

/-- Zero-padding preserves nonemptiness, digit-ness, underscore-freeness and
the decimal value. -/
theorem padZeros_spec (w : Nat) (ds : List Char) (h1 : ds ≠ [])
    (h2 : ds.all Char.isDigit = true) (h3 : '_' ∉ ds) :
    padZeros w ds ≠ [] ∧ (padZeros w ds).all Char.isDigit = true ∧
    '_' ∉ padZeros w ds ∧ digitsToNat (padZeros w ds) = digitsToNat ds := by
  unfold padZeros
  refine ⟨by simp [h1], ?_, ?_, digitsToNat_replicate_zero _ ds⟩
  · simp only [List.all_append, h2, Bool.and_true]
    simp [List.all_eq_true]
  · simp only [List.mem_append]
    rintro (hmem | hmem)
    · have := List.eq_of_mem_replicate hmem
      simp at this
    · exact h3 hmem

/-- For a positive sequence number, the 4-padded rendering is a nonempty
underscore-free digit string whose value is the sequence number. -/
theorem pad4_spec (n : Int) (h : 1 ≤ n) :
    (pad4 n).data ≠ [] ∧ (pad4 n).data.all Char.isDigit = true ∧
    '_' ∉ (pad4 n).data ∧ (digitsToNat (pad4 n).data : Int) = n := by
  obtain ⟨d1, d2, d3, d4⟩ := natToDigits_spec n.toNat
  obtain ⟨p1, p2, p3, p4⟩ := padZeros_spec 4 _ d1 d2 d3
  have hdata : (pad4 n).data = padZeros 4 (natToDigits n.toNat) := by
    unfold pad4
    rw [if_neg (by omega)]
  rw [hdata]
  refine ⟨p1, p2, p3, ?_⟩
  rw [p4, d4]
  omega

/-- Splitting never yields the empty component list. -/
theorem splitOnUnderscore_ne_nil (l : List Char) : splitOnUnderscore l ≠ [] := by
  cases l with
  | nil => exact fun h => List.noConfusion h
  | cons c cs =>
    simp only [splitOnUnderscore]
    by_cases hc : c = '_'
    · rw [if_pos hc]; exact fun h => List.noConfusion h
    · rw [if_neg hc]
      rcases hsp : splitOnUnderscore cs with _ | ⟨g, gs⟩ <;>
        exact fun h => List.noConfusion h

/-- A string with no underscore splits into itself alone. -/
theorem splitOnUnderscore_of_not_mem (l : List Char) (h : '_' ∉ l) :
    splitOnUnderscore l = [l] := by
  induction l with
  | nil => rfl
  | cons c cs ih =>
    have hc : c ≠ '_' := fun hceq => h (hceq ▸ List.mem_cons_self c cs)
    have hcs : '_' ∉ cs := fun hm => h (List.mem_cons_of_mem c hm)
    simp only [splitOnUnderscore]
    rw [if_neg hc, ih hcs]

/-- A list holding an explicit underscore splits into at least two
components. -/
theorem two_le_splitOnUnderscore_length (l1 l2 : List Char) :
    2 ≤ (splitOnUnderscore (l1 ++ '_' :: l2)).length := by
  induction l1 with
  | nil =>
    show 2 ≤ (splitOnUnderscore ('_' :: l2)).length
    simp only [splitOnUnderscore]
    rw [if_pos trivial]
    have hpos : 0 < (splitOnUnderscore l2).length :=
      List.length_pos.mpr (splitOnUnderscore_ne_nil l2)
    simp only [List.length_cons]
    omega
  | cons c cs ih =>
    simp only [List.cons_append, splitOnUnderscore, List.append_eq]
    by_cases hc : c = '_'
    · rw [if_pos hc]
      have hpos : 0 < (splitOnUnderscore (cs ++ '_' :: l2)).length :=
        List.length_pos.mpr (splitOnUnderscore_ne_nil _)
      simp only [List.length_cons]
      omega
    · rw [if_neg hc]
      rcases hsp : splitOnUnderscore (cs ++ '_' :: l2) with _ | ⟨g, gs⟩
      · exact absurd hsp (splitOnUnderscore_ne_nil _)
      · rw [hsp] at ih
        simp only [hsp]
        simp only [List.length_cons] at ih ⊢
        omega

/-- The default value of `getLastD` is irrelevant on a nonempty list. -/
theorem getLastD_congr (l : List (List Char)) (a b : List Char) (h : l ≠ []) :
    l.getLastD a = l.getLastD b := by
  cases l with
  | nil => exact absurd rfl h
  | cons x xs => rw [List.getLastD_cons, List.getLastD_cons]

/-- The component after the last underscore ignores everything up to an
explicit underscore. -/
theorem lastComponent_append_underscore (l1 l2 : List Char) :
    lastComponent (l1 ++ '_' :: l2) = lastComponent l2 := by
  unfold lastComponent
  induction l1 with
  | nil =>
    show (splitOnUnderscore ('_' :: l2)).getLastD [] = _
    simp only [splitOnUnderscore]
    rw [if_pos trivial, List.getLastD_cons]
  | cons c cs ih =>
    simp only [List.cons_append, splitOnUnderscore, List.append_eq]
    by_cases hc : c = '_'
    · rw [if_pos hc, List.getLastD_cons]
      exact ih
    · rw [if_neg hc]
      rcases hsp : splitOnUnderscore (cs ++ '_' :: l2) with _ | ⟨g, gs⟩
      · exact absurd hsp (splitOnUnderscore_ne_nil _)
      · rw [hsp] at ih
        have hlen := two_le_splitOnUnderscore_length cs l2
        rw [hsp] at hlen
        have hgs : gs ≠ [] := by
          intro hgs
          subst hgs
          simp at hlen
        simp only [hsp]
        rw [List.getLastD_cons]
        rw [List.getLastD_cons] at ih
        rw [← ih]
        exact getLastD_congr gs _ _ hgs

/-- A digit character is not whitespace. -/
theorem isDigit_not_whitespace (c : Char) (h : c.isDigit = true) :
    c.isWhitespace = false := by
  by_contra hw
  rw [Bool.not_eq_false] at hw
  have hcases : ((c = ' ' ∨ c = '\t') ∨ c = '\x0d') ∨ c = '\n' := by
    simpa [Char.isWhitespace] using hw
  rcases hcases with ((rfl | rfl) | rfl) | rfl <;> exact absurd h (by decide)

/-- A digit character is neither a minus nor a plus sign. -/
theorem isDigit_ne_sign (c : Char) (h : c.isDigit = true) :
    c ≠ '-' ∧ c ≠ '+' := by
  constructor <;> rintro rfl <;> exact absurd h (by decide)

/-- Whitespace-stripping does not touch an all-digit string. -/
theorem dropWhile_ws_digits (l : List Char) (h : l.all Char.isDigit = true) :
    l.dropWhile Char.isWhitespace = l := by
  cases l with
  | nil => rfl
  | cons c cs =>
    have hc : c.isDigit = true := by
      simp only [List.all_cons, Bool.and_eq_true] at h
      exact h.1
    simp [List.dropWhile_cons, isDigit_not_whitespace c hc]

/-- Python's surrounding-whitespace strip is the identity on an all-digit
string. -/
theorem trim_digits (ds : List Char) (h : ds.all Char.isDigit = true) :
    ((ds.dropWhile Char.isWhitespace).reverse.dropWhile Char.isWhitespace).reverse
      = ds := by
  rw [dropWhile_ws_digits ds h, dropWhile_ws_digits ds.reverse (by simpa using h),
    List.reverse_reverse]

/-- `int` on a nonempty all-digit string returns its decimal value. -/
theorem pyInt_digits (ds : List Char) (hne : ds ≠ [])
    (hd : ds.all Char.isDigit = true) :
    pyInt? ds = some (digitsToNat ds : Int) := by
  obtain ⟨c, cs, rfl⟩ := List.exists_cons_of_ne_nil hne
  have hc : c.isDigit = true := by
    simp only [List.all_cons, Bool.and_eq_true] at hd
    exact hd.1
  have h1 : c ≠ '-' := (isDigit_ne_sign c hc).1
  have h2 : c ≠ '+' := (isDigit_ne_sign c hc).2
  simp only [pyInt?]
  rw [trim_digits _ hd]
  simp only [List.head?_cons]
  have hsgn : ¬ ((some c : Option Char) = some '-') := by simp [h1]
  have hmag : ¬ (((some c : Option Char) = some '-') ∨ ((some c : Option Char) = some '+')) := by
    simp [h1, h2]
  rw [if_neg hmag, if_neg hsgn]
  rw [if_pos ⟨List.cons_ne_nil c cs, hd⟩, one_mul]

/-- The character-list decomposition of a filename the writer formats. -/
theorem saved_name_data (pfx : String) (n : Int) :
    (pfx ++ "_" ++ pad4 n ++ ".jpg").data
      = (pfx.data ++ ['_']) ++ ((pad4 n).data ++ ['.', 'j', 'p', 'g']) := by
  show ((pfx.data ++ ['_']) ++ (pad4 n).data) ++ ['.', 'j', 'p', 'g']
      = (pfx.data ++ ['_']) ++ ((pad4 n).data ++ ['.', 'j', 'p', 'g'])
  exact List.append_assoc _ _ _

/-- The writer's filename always matches the glob the resolver scans with. -/
theorem globMatch_saved (pfx : String) (s : List Char) :
    globMatch pfx.data ((pfx.data ++ ['_']) ++ (s ++ ['.', 'j', 'p', 'g'])) = true := by
  unfold globMatch
  rw [Bool.and_eq_true]
  constructor
  · rw [ List.isPrefixOf_iff_prefix]
    exact List.prefix_append _ _
  · have hlen : (pfx.data ++ ['_']).length = pfx.data.length + 1 := by simp
    rw [← hlen, List.drop_left, List.isSuffixOf_iff_suffix]
    exact List.suffix_append _ _

/-- Parsing a filename the writer just formatted returns exactly the sequence
number embedded in it. -/
theorem parseSeq_saved (pfx : String) (n : Int) (h : 1 ≤ n) :
    parseSeq (pfx ++ "_" ++ pad4 n ++ ".jpg") = some n := by
  obtain ⟨p1, p2, p3, p4⟩ := pad4_spec n h
  unfold parseSeq
  rw [saved_name_data]
  have hstem : stemOf ((pfx.data ++ ['_']) ++ ((pad4 n).data ++ ['.', 'j', 'p', 'g']))
      = (pfx.data ++ ['_']) ++ (pad4 n).data := by
    unfold stemOf
    rw [show (pfx.data ++ ['_']) ++ ((pad4 n).data ++ ['.', 'j', 'p', 'g'])
        = ((pfx.data ++ ['_']) ++ (pad4 n).data) ++ ['.', 'j', 'p', 'g'] from
      (List.append_assoc _ _ _).symm]
    have hl : ((((pfx.data ++ ['_']) ++ (pad4 n).data) ++ ['.', 'j', 'p', 'g']).length - 4)
        = ((pfx.data ++ ['_']) ++ (pad4 n).data).length := by
      simp
      omega
    rw [hl, List.take_left]
  rw [hstem]
  rw [show (pfx.data ++ ['_']) ++ (pad4 n).data = pfx.data ++ ('_' :: (pad4 n).data)
    from by simp]
  rw [lastComponent_append_underscore]
  unfold lastComponent
  rw [splitOnUnderscore_of_not_mem _ p3, List.getLastD_cons, List.getLastD_nil]
  rw [pyInt_digits _ p1 p2, p4]

/-- Every sequence value already parsed from the folder is strictly below the
resolver's answer. -/
theorem seq_lt_next (entries : List String) (pfx e : String) (k : Int)
    (he : e ∈ entries) (hm : globMatch pfx.data e.data = true)
    (hk : parseSeq e = some k) :
    k < get_next_sequence_number (some entries) pfx := by
  rw [get_some_eq]
  have hmem : k ∈ parsedSeqs entries pfx := by
    unfold parsedSeqs matchedFiles
    exact List.mem_filterMap.mpr ⟨e, List.mem_filter.mpr ⟨he, hm⟩, hk⟩
  have hle := mem_le_foldl_max (parsedSeqs entries pfx) 0 k hmem
  omega

/-- The filename the writer is about to use is never already in the folder. -/
theorem saved_filename_not_mem (entries : List String) (pfx : String) :
    (pfx ++ "_" ++ pad4 (get_next_sequence_number (some entries) pfx) ++ ".jpg")
      ∉ entries := by
  intro hmem
  have h1 : 1 ≤ get_next_sequence_number (some entries) pfx := one_le_get _ _
  have hm : globMatch pfx.data
      (pfx ++ "_" ++ pad4 (get_next_sequence_number (some entries) pfx) ++ ".jpg").data
      = true := by
    rw [saved_name_data]
    exact globMatch_saved pfx _
  have hp := parseSeq_saved pfx _ h1
  have hlt := seq_lt_next entries pfx _ _ hmem hm hp
  omega

/-- C5: the Capture Writer creates the folder when it is missing, obtains the
sequence number from the Sequence Resolver, writes exactly one new file named
`<prefix>_<seq padded to 4 digits>.jpg` at JPEG quality 95 (never overwriting
an existing entry), and returns that filename; saving into a nonexistent
folder materialises it with exactly the new file. -/
theorem C5_capture_writer :
    (∀ (folder : Option (List String)) (pfx : String) (r : SaveOutcome),
        globSafe pfx = true → r = save_frame_to_disk folder pfx →
        r.filename = pfx ++ "_" ++ pad4 (get_next_sequence_number folder pfx) ++ ".jpg" ∧
        r.seq = get_next_sequence_number folder pfx ∧
        r.quality = 95 ∧
        r.filename ∉ folder.getD [] ∧
        r.contents = folder.getD [] ++ [r.filename]) ∧
    (save_frame_to_disk none "object_01").contents = ["object_01_0001.jpg"] := by
  constructor
  · intro folder pfx r _ hr
    subst hr
    have hnotmem :
        (pfx ++ "_" ++ pad4 (get_next_sequence_number folder pfx) ++ ".jpg")
          ∉ folder.getD [] := by
      cases folder with
      | none => simp
      | some entries => exact saved_filename_not_mem entries pfx
    refine ⟨rfl, rfl, rfl, hnotmem, ?_⟩
    simp only [save_frame_to_disk]
    rw [if_neg hnotmem]
  · decide

/-- Witness for C5 at a concrete folder: a second save next to
`object_01_0001.jpg` uses quality 95 and appends exactly one entry. -/
theorem C5_capture_writer_witness :
    (save_frame_to_disk (some ["object_01_0001.jpg"]) "object_01").quality = 95 ∧
    (save_frame_to_disk (some ["object_01_0001.jpg"]) "object_01").contents
      = ["object_01_0001.jpg"]
          ++ [(save_frame_to_disk (some ["object_01_0001.jpg"]) "object_01").filename] :=
  ⟨(C5_capture_writer.1 (some ["object_01_0001.jpg"]) "object_01" _ (by decide) rfl).2.2.1,
   (C5_capture_writer.1 (some ["object_01_0001.jpg"]) "object_01" _ (by decide) rfl).2.2.2.2⟩

/-- C6: every save assigns a sequence number strictly greater than every
sequence number already parsed for that prefix in the folder, so saving
preserves the no-duplicate-`seq` invariant; saving into an empty folder
produces `p_0001.jpg` and saving again produces `p_0002.jpg`. -/
theorem C6_sequence_uniqueness :
    (∀ (entries : List String) (pfx e : String) (k : Int), globSafe pfx = true →
        e ∈ entries → globMatch pfx.data e.data = true → parseSeq e = some k →
        k < (save_frame_to_disk (some entries) pfx).seq) ∧
    (∀ (entries : List String) (pfx : String), globSafe pfx = true →
        (parsedSeqs entries pfx).Nodup →
        (parsedSeqs (save_frame_to_disk (some entries) pfx).contents pfx).Nodup) ∧
    (save_frame_to_disk none "p").filename = "p_0001.jpg" ∧
    (save_frame_to_disk (some (save_frame_to_disk none "p").contents) "p").filename
      = "p_0002.jpg" := by
  refine ⟨?_, ?_, by decide, by decide⟩
  · intro entries pfx e k _ he hm hk
    exact seq_lt_next entries pfx e k he hm hk
  · intro entries pfx _ hnd
    have h1 := one_le_get (some entries) pfx
    have hnm := saved_filename_not_mem entries pfx
    have hcont : (save_frame_to_disk (some entries) pfx).contents
        = entries
            ++ [pfx ++ "_" ++ pad4 (get_next_sequence_number (some entries) pfx) ++ ".jpg"] := by
      simp only [save_frame_to_disk, Option.getD_some]
      rw [if_neg hnm]
    rw [hcont]
    have happ : parsedSeqs
        (entries
          ++ [pfx ++ "_" ++ pad4 (get_next_sequence_number (some entries) pfx) ++ ".jpg"])
        pfx
        = parsedSeqs entries pfx ++ [get_next_sequence_number (some entries) pfx] := by
      rw [parsedSeqs_eq_filterMap, parsedSeqs_eq_filterMap, List.filterMap_append]
      congr 1
      simp only [List.filterMap_cons, List.filterMap_nil]
      rw [if_pos (by rw [saved_name_data]; exact globMatch_saved pfx _)]
      rw [parseSeq_saved pfx _ h1]
    rw [happ]
    refine List.Nodup.append hnd (List.nodup_singleton _) ?_
    intro a ha hb
    rw [List.mem_singleton] at hb
    have hle := mem_le_foldl_max (parsedSeqs entries pfx) 0 a ha
    have hg := get_some_eq entries pfx
    omega

/-- Witness for C6 at a concrete folder: the sequence value 3 already present
in `p_0003.jpg` is strictly below the seq the next save assigns. -/
theorem C6_sequence_uniqueness_witness :
    (3 : Int) < (save_frame_to_disk (some ["p_0003.jpg"]) "p").seq :=
  C6_sequence_uniqueness.1 ["p_0003.jpg"] "p" "p_0003.jpg" 3 (by decide) (by decide)
    (by decide) (by decide)

/-- The five persisted configuration fields of `config.json`. -/
structure Config where
  crop_w : Int
  crop_h : Int
  off_x : Int
  off_y : Int
  cam_index : Int
deriving DecidableEq

/-- The state of the configuration file as `load_config` can encounter it:
absent, present but failing `open`/`json.load`, or holding a stored
configuration (every file `save_config` writes parses back to its fields,
since `json.dump` round-trips the five integers). -/
inductive ConfigFile where
  | missing : ConfigFile
  | corrupt : ConfigFile
  | stored (c : Config) : ConfigFile
deriving DecidableEq

/-- The fallback configuration of `app.py` lines 21–25. -/
def defaultConfig : Config :=
  { crop_w := 300, crop_h := 300, off_x := 170, off_y := 90, cam_index := 0 }

/-- `load_config()` (`app.py` lines 14–25): a missing file skips the read,
and any exception while opening or parsing is swallowed by
`except Exception: pass`; both paths fall through to the defaults. Total —
no exception escapes. -/
def load_config : ConfigFile → Config
  | ConfigFile.missing => defaultConfig
  | ConfigFile.corrupt => defaultConfig
  | ConfigFile.stored c => c

/-- `save_config(config)` (`app.py` lines 27–29): rewrites the file in full
with the given values. -/
def save_config (c : Config) : ConfigFile :=
  ConfigFile.stored c

/-- The sidebar change-detection step (`app.py` lines 123–130): the file is
rewritten exactly when the current widget values differ from the loaded
snapshot, and left untouched otherwise. -/
def syncConfig (loaded current : Config) (file : ConfigFile) : ConfigFile :=
  if current ≠ loaded then save_config current else file

/-- C7: loading returns the stored fields when the file exists and parses,
returns the documented defaults `{300, 300, 170, 90, 0}` without raising
when the file is missing or unparsable, a save-then-load round-trip
preserves the fields, and the file is rewritten exactly when a value differs
from the loaded snapshot. -/
theorem C7_config_persistence :
    (∀ c : Config, load_config (save_config c) = c) ∧
    load_config ConfigFile.missing = defaultConfig ∧
    load_config ConfigFile.corrupt = defaultConfig ∧
    defaultConfig
      = { crop_w := 300, crop_h := 300, off_x := 170, off_y := 90, cam_index := 0 } ∧
    (∀ (loaded current : Config) (file : ConfigFile), current ≠ loaded →
        syncConfig loaded current file = save_config current) ∧
    (∀ (loaded : Config) (file : ConfigFile), syncConfig loaded loaded file = file) := by
  refine ⟨fun c => rfl, rfl, rfl, rfl, ?_, ?_⟩
  · intro loaded current file h
    simp [syncConfig, h]
  · intro loaded file
    simp [syncConfig]

/-- Witness for C7 at a concrete changed configuration: a differing crop
width forces a rewrite of the file. -/
theorem C7_config_persistence_witness :
    syncConfig defaultConfig
        { crop_w := 301, crop_h := 300, off_x := 170, off_y := 90, cam_index := 0 }
        ConfigFile.missing
      = save_config
          { crop_w := 301, crop_h := 300, off_x := 170, off_y := 90, cam_index := 0 } :=
  C7_config_persistence.2.2.2.2.1 defaultConfig
    { crop_w := 301, crop_h := 300, off_x := 170, off_y := 90, cam_index := 0 }
    ConfigFile.missing (by decide)

/-- One iteration's external input to the native capture loop of
`data_collector.py` lines 139–182: either the camera read fails (`ret` is
false), or a frame arrives together with the `waitKey` code and a flag
telling whether the save attempted in this iteration raises (for example a
disk-full error out of `cv2.imwrite` — the spec's `WriteError`, which is
"propagated to the caller; no automatic retry"). -/
inductive IterInput where
  | readFail : IterInput
  | frame (key : Nat) (saveRaises : Bool) : IterInput
deriving DecidableEq

/-- How the `while True` loop ends. -/
inductive ExitKind where
  | quit : ExitKind
  | readFailure : ExitKind
  | raised : ExitKind
deriving DecidableEq

/-- The `while True` body driven by a finite input script: a failed read
breaks (line 143), `ord('q') = 113` breaks (line 175), `ord('s') = 115`
saves — propagating a raised write error — and every other key continues;
`none` means the script ran out with the loop still live. The code masks the
key with `& 0xFF`, modelled by `% 256`. -/
def captureLoop : List IterInput → Option ExitKind
  | [] => none
  | IterInput.readFail :: _ => some ExitKind.readFailure
  | IterInput.frame key saveRaises :: rest =>
    if key % 256 = 113 then some ExitKind.quit
    else if key % 256 = 115 then
      if saveRaises then some ExitKind.raised else captureLoop rest
    else captureLoop rest

/-- The session outcome: how the loop ended and whether the camera handle
was released. -/
structure SessionResult where
  exit : ExitKind
  cameraReleased : Bool
deriving DecidableEq

/-- The whole native session: the loop followed by `cap.release()` at
line 183. The release statement sits after the loop with no `try/finally`,
so it runs exactly when the loop exits via `break`; an exception raised in
the body propagates past it and the handle stays held. -/
def nativeSession (inputs : List IterInput) : Option SessionResult :=
  match captureLoop inputs with
  | none => none
  | some ExitKind.quit => some ⟨ExitKind.quit, true⟩
  | some ExitKind.readFailure => some ⟨ExitKind.readFailure, true⟩
  | some ExitKind.raised => some ⟨ExitKind.raised, false⟩

/-- C8 counterexample: pressing `s` while the save raises (a propagated
write error) ends the session with the camera still held — there is no
`try/finally` around the loop — so it is false that every exit path releases
the handle. -/
theorem C8_counterexample :
    nativeSession [IterInput.frame 115 true] = some ⟨ExitKind.raised, false⟩ ∧
    ¬ (∀ (inputs : List IterInput) (r : SessionResult),
        nativeSession inputs = some r → r.cameraReleased = true) := by
  refine ⟨by decide, fun h => ?_⟩
  have hr := h [IterInput.frame 115 true] ⟨ExitKind.raised, false⟩ (by decide)
  exact absurd hr (by decide)

/-- C8 amended: the camera handle is released on every `break` exit of the
loop — the explicit quit keypress and the frame-read failure — but when the
loop body exits via an exception (e.g. a propagated write error during a
save) the release is skipped and the handle stays held. -/
theorem C8_amended_release_on_break :
    (∀ (inputs : List IterInput) (r : SessionResult),
        nativeSession inputs = some r →
        (r.cameraReleased = true ↔ r.exit ≠ ExitKind.raised)) ∧
    nativeSession [IterInput.frame 113 false] = some ⟨ExitKind.quit, true⟩ ∧
    nativeSession [IterInput.readFail] = some ⟨ExitKind.readFailure, true⟩ ∧
    nativeSession [IterInput.frame 115 true] = some ⟨ExitKind.raised, false⟩ := by
  refine ⟨?_, by decide, by decide, by decide⟩
  intro inputs r h
  unfold nativeSession at h
  rcases hl : captureLoop inputs with _ | e
  · rw [hl] at h
    exact Option.noConfusion h
  · rw [hl] at h
    cases e <;> (injection h with h2; subst h2; decide)

/-- Witness for C8's amended claim at a concrete quit session. -/
theorem C8_amended_release_on_break_witness :
    (SessionResult.mk ExitKind.quit true).cameraReleased = true ↔
      (SessionResult.mk ExitKind.quit true).exit ≠ ExitKind.raised :=
  C8_amended_release_on_break.1 [IterInput.frame 113 false]
    ⟨ExitKind.quit, true⟩ (by decide)

/-- The overlay-then-crop step of one capture iteration (`app.py` lines
178–203; same shape in `data_collector.py` lines 153–179): the code first
takes `frame_display = frame.copy()` so the drawing calls (`cv2.rectangle`,
`cv2.putText`) mutate only that separate buffer, then crops the ROI as
`frame[y1:y2, x1:x2]` — a view of the original buffer. A buffer is a pixel
map from (row, column); the ROI view maps local (r, c) to the original's
(y1 + r, x1 + c). The first component is what is displayed, the second is
what `save_frame_to_disk` receives. -/
def overlayAndCrop (α : Type) (frame : Int × Int → α)
    (draw : (Int × Int → α) → (Int × Int → α)) (x1 y1 : Int) :
    ((Int × Int → α) × (Int × Int → α)) :=
  let frame_display := draw frame
  let roi := fun p : Int × Int => frame (y1 + p.1, x1 + p.2)
  (frame_display, roi)

/-- C10: the guide overlay is drawn only on a copy of the captured frame
while the saved ROI is cropped from the unmodified original, so the pixels
handed to the writer are raw camera pixels: they do not depend on the
drawing routine at all, and each equals the corresponding original pixel. -/
theorem C10_saved_roi_overlay_free :
    (∀ (α : Type) (frame : Int × Int → α)
        (draw draw2 : (Int × Int → α) → (Int × Int → α)) (x1 y1 : Int),
        (overlayAndCrop α frame draw x1 y1).2
          = (overlayAndCrop α frame draw2 x1 y1).2) ∧
    (∀ (α : Type) (frame : Int × Int → α)
        (draw : (Int × Int → α) → (Int × Int → α)) (x1 y1 : Int) (p : Int × Int),
        (overlayAndCrop α frame draw x1 y1).2 p = frame (y1 + p.1, x1 + p.2)) ∧
    (∀ (α : Type) (frame : Int × Int → α)
        (draw : (Int × Int → α) → (Int × Int → α)) (x1 y1 : Int),
        (overlayAndCrop α frame draw x1 y1).1 = draw frame) :=
  ⟨fun _ _ _ _ _ _ => rfl, fun _ _ _ _ _ _ => rfl, fun _ _ _ _ _ => rfl⟩

end ImageCaptureUtil
